import Mathlib

/-!
Shallow embedding of the Go blogging-platform API
(`internal/database/memory.go`, `internal/handler/post.go`,
`internal/model/post.go`, `cmd/api/main.go`).

Strings are modelled as lists of characters (`Str`), timestamps as natural
numbers: each call the Go code makes to `time.Now().UTC()` becomes an explicit
parameter, and the monotonicity of the real clock becomes a hypothesis
relating those parameters.  Go's `int64` identifiers are modelled as `Int`
(the id counter starts at 1 and only ever increments, so 64-bit overflow is
unreachable for any feasible execution).  The `sync.RWMutex` disappears:
every operation is atomic under its lock, so the store is a sequential state
machine.
-/

namespace BlogApi

/-- Model of a Go string: a list of characters. -/
abbrev Str := List Char

/-- Model of Go `strings.ToLower` (character-wise lowercasing; Lean's
`Char.toLower` covers the ASCII range of Go's Unicode mapping, which is all
the claims exercise). -/
def goToLower (s : Str) : Str := s.map Char.toLower

/-- Model of Go `strings.HasPrefix p s`-style test: `isPreOf p s` is true
iff `p` is a leading segment of `s`. -/
def isPreOf : Str → Str → Bool
  | [], _ => true
  | _ :: _, [] => false
  | a :: as, b :: bs => a == b && isPreOf as bs

/-- Model of Go `strings.Contains hay needle`: some leading-trimmed tail of
`hay` starts with `needle`. -/
def containsSubL : Str → Str → Bool
  | [], needle => isPreOf needle []
  | c :: t, needle => isPreOf needle (c :: t) || containsSubL t needle

/-- Model of Go `strings.TrimPrefix s pre`: drop `pre` when it leads `s`,
otherwise return `s` unchanged. -/
def trimPre (s pre : Str) : Str :=
  if isPreOf pre s then s.drop pre.length else s

/-- Decimal value of a digit list (used by the `ParseInt` model). -/
def digitsVal (ds : Str) : Nat :=
  ds.foldl (fun acc d => acc * 10 + (d.toNat - ('0').toNat)) 0

/-- Model of Go `strconv.ParseInt(s, 10, 64)`: optional sign, a nonempty
run of decimal digits, and the signed 64-bit range check (`ErrRange` and
`ErrSyntax` both collapse to `none`, since the handler only tests
`err != nil`). -/
def parseInt64 (s : Str) : Option Int :=
  match s with
  | [] => none
  | c :: rest =>
    let neg := c == '-'
    let digits := if c == '-' || c == '+' then rest else c :: rest
    if digits == [] || !(digits.all Char.isDigit) then none
    else
      let n := digitsVal digits
      if neg then
        if n > 2 ^ 63 then none else some (-(n : Int))
      else
        if n ≥ 2 ^ 63 then none else some (n : Int)

/-- Model of `model.Post` (`internal/model/post.go`).  `CreatedAt` and
`UpdatedAt` are abstract clock readings. -/
structure Post where
  ID : Int
  Title : Str
  Content : Str
  Category : Str
  Tags : List Str
  CreatedAt : Nat
  UpdatedAt : Nat
  deriving DecidableEq, Repr

/-- Association-list model of the Go map `map[int64]*model.Post`. -/
abbrev PostMap := List (Int × Post)

/-- Map lookup `m[k]`. -/
def mapGet (m : PostMap) (k : Int) : Option Post :=
  match m with
  | [] => none
  | kv :: rest => if kv.1 == k then some kv.2 else mapGet rest k

/-- Map write `m[k] = v` (replace an existing binding or append a new one). -/
def mapSet (m : PostMap) (k : Int) (v : Post) : PostMap :=
  match m with
  | [] => [(k, v)]
  | kv :: rest => if kv.1 == k then (k, v) :: rest else kv :: mapSet rest k v

/-- Map removal `delete(m, k)`. -/
def mapDel (m : PostMap) (k : Int) : PostMap :=
  m.filter (fun kv => !(kv.1 == k))

/-- Model of `database.MemoryStore` (posts collection plus id counter; the
mutex is elided since every operation is atomic under it). -/
structure MemoryStore where
  posts : PostMap
  nextID : Int
  deriving DecidableEq, Repr

/-- Model of `database.NewMemoryStore`. -/
def NewMemoryStore : MemoryStore := { posts := [], nextID := 1 }

/-- Printed decimal form of an id, as Go `fmt` renders an `int64`. -/
def intToStr (i : Int) : Str :=
  if i < 0 then '-' :: Nat.toDigits 10 i.natAbs else Nat.toDigits 10 i.toNat

/-- The store's `fmt.Errorf("post with id %d not found", id)` message. -/
def notFoundMsg (id : Int) : Str :=
  ("post with id ").data ++ intToStr id ++ (" not found").data

/-- Model of `MemoryStore.CreatePost`.  `t1` and `t2` are the results of its
two successive `time.Now().UTC()` calls (for `CreatedAt` and `UpdatedAt`
respectively).  The Go error result is always `nil`, so the model returns
the id and the new state directly. -/
def CreatePost (s : MemoryStore) (post : Post) (t1 t2 : Nat) :
    Int × MemoryStore :=
  let p := { post with ID := s.nextID, CreatedAt := t1, UpdatedAt := t2 }
  (s.nextID, { posts := mapSet s.posts s.nextID p, nextID := s.nextID + 1 })

/-- Model of `MemoryStore.GetPost`. -/
def GetPost (s : MemoryStore) (id : Int) : Except Str Post :=
  match mapGet s.posts id with
  | some p => Except.ok p
  | none => Except.error (notFoundMsg id)

/-- The filter condition of `MemoryStore.GetAllPosts`, verbatim from the
loop body: `term == "" || Contains(ToLower(title), lowerTerm) || ...`. -/
def matchesTerm (term : Str) (p : Post) : Bool :=
  term == [] ||
    containsSubL (goToLower p.Title) (goToLower term) ||
    containsSubL (goToLower p.Content) (goToLower term) ||
    containsSubL (goToLower p.Category) (goToLower term)

/-- Model of `MemoryStore.GetAllPosts` (the Go map's iteration order is
unspecified; the model iterates in association-list order). -/
def GetAllPosts (s : MemoryStore) (term : Str) : Except Str (List Post) :=
  Except.ok ((s.posts.filter (fun kv => matchesTerm term kv.2)).map
    (fun kv => kv.2))

/-- Model of `MemoryStore.UpdatePost`.  `t` is the result of its single
`time.Now().UTC()` call. -/
def UpdatePost (s : MemoryStore) (id : Int) (post : Post) (t : Nat) :
    Except Str (Post × MemoryStore) :=
  match mapGet s.posts id with
  | none => Except.error (notFoundMsg id)
  | some existingPost =>
    let p := { existingPost with
      Title := post.Title, Content := post.Content,
      Category := post.Category, Tags := post.Tags, UpdatedAt := t }
    Except.ok (p, { s with posts := mapSet s.posts id p })

/-- Model of `MemoryStore.DeletePost`. -/
def DeletePost (s : MemoryStore) (id : Int) : Except Str MemoryStore :=
  match mapGet s.posts id with
  | none => Except.error (notFoundMsg id)
  | some _ => Except.ok { s with posts := mapDel s.posts id }

/-- The part of an HTTP request the handler inspects: the method string, the
URL path, the `term` query parameter (`none` when absent; Go's
`Query().Get` then yields the empty string), and the JSON decode result of
the body (`none` models a malformed body). -/
structure Request where
  method : Str
  path : Str
  query : Option Str
  body : Option Post
  deriving DecidableEq, Repr

/-- What the handler writes to the response: plain text (via `http.Error`),
a JSON-encoded post or post list, or an empty body. -/
inductive RespBody where
  | text : Str → RespBody
  | jsonPost : Post → RespBody
  | jsonPosts : List Post → RespBody
  | empty : RespBody
  deriving DecidableEq, Repr

/-- An HTTP response: status code and body. -/
structure Response where
  status : Nat
  body : RespBody
  deriving DecidableEq, Repr

/-- The handler's `{"error": "title and content are required"}` payload. -/
def valReqMsg : Str :=
  ("\x7b\"error\": \"title and content are required\"\x7d").data

/-- Model of `PostHandler.CreatePost` (POST on the collection route):
decode, validate non-empty title/content, call `Store.CreatePost`, re-fetch
the created post, respond 201.  `t1 t2` feed the store's two clock reads. -/
def CreatePostH (s : MemoryStore) (r : Request) (t1 t2 : Nat) :
    Response × MemoryStore :=
  match r.body with
  | none => (⟨400, RespBody.text ("Invalid request body").data⟩, s)
  | some post =>
    if post.Title == [] || post.Content == [] then
      (⟨400, RespBody.text valReqMsg⟩, s)
    else
      let res := CreatePost s post t1 t2
      match GetPost res.2 res.1 with
      | Except.error _ =>
        (⟨500, RespBody.text ("Failed to retrieve created post").data⟩, res.2)
      | Except.ok createdPost =>
        (⟨201, RespBody.jsonPost createdPost⟩, res.2)

/-- Model of `PostHandler.GetAllPosts` (GET on the collection route): read
the `term` query parameter (empty string when absent) and list. -/
def GetAllPostsH (s : MemoryStore) (r : Request) : Response × MemoryStore :=
  let term := r.query.getD []
  match GetAllPosts s term with
  | Except.error _ => (⟨500, RespBody.text ("Failed to get posts").data⟩, s)
  | Except.ok posts => (⟨200, RespBody.jsonPosts posts⟩, s)

/-- Model of `PostHandler.GetPost` (GET on an id route). -/
def GetPostH (s : MemoryStore) (id : Int) : Response × MemoryStore :=
  match GetPost s id with
  | Except.error _ =>
    (⟨404, RespBody.text
      (("Post with id ").data ++ intToStr id ++ (" not found").data)⟩, s)
  | Except.ok post => (⟨200, RespBody.jsonPost post⟩, s)

/-- Model of `PostHandler.UpdatePost` (PUT on an id route): decode, validate,
call `Store.UpdatePost`, and map a "not found" error message to 404.  `t`
feeds the store's clock read. -/
def UpdatePostH (s : MemoryStore) (r : Request) (id : Int) (t : Nat) :
    Response × MemoryStore :=
  match r.body with
  | none => (⟨400, RespBody.text ("Invalid request body").data⟩, s)
  | some post =>
    if post.Title == [] || post.Content == [] then
      (⟨400, RespBody.text valReqMsg⟩, s)
    else
      match UpdatePost s id post t with
      | Except.error e =>
        if containsSubL e ("not found").data then
          (⟨404, RespBody.text e⟩, s)
        else
          (⟨500, RespBody.text ("Failed to update post").data⟩, s)
      | Except.ok res => (⟨200, RespBody.jsonPost res.1⟩, res.2)

/-- Model of `PostHandler.DeletePost` (DELETE on an id route). -/
def DeletePostH (s : MemoryStore) (id : Int) : Response × MemoryStore :=
  match DeletePost s id with
  | Except.error e =>
    if containsSubL e ("not found").data then
      (⟨404, RespBody.text e⟩, s)
    else
      (⟨500, RespBody.text ("Failed to delete post").data⟩, s)
  | Except.ok s2 => (⟨204, RespBody.empty⟩, s2)

/-- Model of `PostHandler.ServeHTTP`: trim the leading `/posts/`, dispatch
the empty remainder to the collection handlers, otherwise parse the
remainder as an id and dispatch by method.  `t1 t2` feed whatever clock
reads the chosen operation makes (create uses both, update the first). -/
def ServeHTTP (s : MemoryStore) (r : Request) (t1 t2 : Nat) :
    Response × MemoryStore :=
  let idStr := trimPre r.path ("/posts/").data
  if idStr == [] then
    if r.method == ("GET").data then GetAllPostsH s r
    else if r.method == ("POST").data then CreatePostH s r t1 t2
    else (⟨405, RespBody.text ("Method not allowed").data⟩, s)
  else
    match parseInt64 idStr with
    | none => (⟨400, RespBody.text ("Invalid post ID").data⟩, s)
    | some id =>
      if r.method == ("GET").data then GetPostH s id
      else if r.method == ("PUT").data then UpdatePostH s r id t1
      else if r.method == ("DELETE").data then DeletePostH s id
      else (⟨405, RespBody.text ("Method not allowed").data⟩, s)

/-- A store operation together with the clock readings its `time.Now()`
calls produce, for reasoning about arbitrary operation sequences. -/
inductive Op where
  | create (draft : Post) (t1 t2 : Nat)
  | update (id : Int) (draft : Post) (t : Nat)
  | delete (id : Int)
  | get (id : Int)
  | list (term : Str)
  deriving DecidableEq, Repr

/-- The state transition of one store operation (failed update/delete leave
the state unchanged; get/list never change it). -/
def applyOp (s : MemoryStore) : Op → MemoryStore
  | Op.create d t1 t2 => (CreatePost s d t1 t2).2
  | Op.update id d t =>
    match UpdatePost s id d t with
    | Except.ok res => res.2
    | Except.error _ => s
  | Op.delete id =>
    match DeletePost s id with
    | Except.ok s2 => s2
    | Except.error _ => s
  | Op.get _ => s
  | Op.list _ => s

/-- Run a sequence of store operations. -/
def runOps (s : MemoryStore) (ops : List Op) : MemoryStore :=
  ops.foldl applyOp s

/-- The ids handed out by the `create` calls of a sequence, in call order. -/
def createdIds (s : MemoryStore) : List Op → List Int
  | [] => []
  | Op.create d t1 t2 :: rest =>
    (CreatePost s d t1 t2).1 :: createdIds (applyOp s (Op.create d t1 t2)) rest
  | op :: rest => createdIds (applyOp s op) rest

/-- Number of `create` operations in a sequence. -/
def countCreates : List Op → Nat
  | [] => 0
  | Op.create _ _ _ :: rest => countCreates rest + 1
  | _ :: rest => countCreates rest

/-- Store well-formedness: map keys are distinct, each stored post's `ID`
field is its key, and every key is below the id counter.  Every state the
Go program reaches from `NewMemoryStore` satisfies this. -/
def WF (s : MemoryStore) : Prop :=
  (s.posts.map (fun kv => kv.1)).Nodup ∧
    (∀ kv ∈ s.posts, kv.2.ID = kv.1) ∧
    (∀ kv ∈ s.posts, kv.1 < s.nextID)

instance (s : MemoryStore) : Decidable (WF s) := by
  unfold WF; infer_instance

/-- The spec's search predicate, stated as §4.1/§8 word it: the title,
content, or category contains the term as a case-insensitive substring. -/
def ciMatch (term : Str) (p : Post) : Bool :=
  containsSubL (goToLower p.Title) (goToLower term) ||
    containsSubL (goToLower p.Content) (goToLower term) ||
    containsSubL (goToLower p.Category) (goToLower term)

/-! ### Basic lemmas about the string and map models -/

theorem isPreOf_append (p t : Str) : isPreOf p (p ++ t) = true := by
  induction p with
  | nil => rfl
  | cons a as ih => simp [isPreOf, ih]

theorem trimPre_append (p t : Str) : trimPre (p ++ t) p = t := by
  simp [trimPre, isPreOf_append, List.drop_left]

theorem trimPre_self (p : Str) : trimPre p p = [] := by
  have h := trimPre_append p []
  simpa using h

theorem containsSubL_append_left (a b n : Str)
    (h : containsSubL b n = true) : containsSubL (a ++ b) n = true := by
  induction a with
  | nil => simpa using h
  | cons c cs ih => simp [containsSubL, ih]

theorem containsSubL_nil_needle (h : Str) : containsSubL h [] = true := by
  cases h with
  | nil => rfl
  | cons c t => simp [containsSubL, isPreOf]

theorem contains_notFound (id : Int) :
    containsSubL (notFoundMsg id) (("not found").data) = true := by
  unfold notFoundMsg
  apply containsSubL_append_left
  decide

theorem mapGet_mapSet_self (m : PostMap) (k : Int) (v : Post) :
    mapGet (mapSet m k v) k = some v := by
  induction m with
  | nil => simp [mapSet, mapGet]
  | cons kv rest ih =>
    by_cases h : kv.1 = k
    · simp [mapSet, mapGet, h]
    · simp [mapSet, mapGet, h, ih]

theorem mapGet_mapSet_ne (m : PostMap) (k j : Int) (v : Post)
    (h : j ≠ k) : mapGet (mapSet m k v) j = mapGet m j := by
  induction m with
  | nil => simp [mapSet, mapGet, Ne.symm h]
  | cons kv rest ih =>
    by_cases hk : kv.1 = k
    · subst hk
      simp [mapSet, mapGet, Ne.symm h]
    · simp only [mapSet, beq_iff_eq, hk, if_false]
      by_cases hj : kv.1 = j
      · simp [mapGet, hj]
      · simp [mapGet, hj, ih]

theorem mapGet_mapDel (m : PostMap) (k j : Int) :
    mapGet (mapDel m k) j = if j = k then none else mapGet m j := by
  induction m with
  | nil => simp [mapDel, mapGet]
  | cons kv rest ih =>
    by_cases hk : kv.1 = k
    · have hstep : mapDel (kv :: rest) k = mapDel rest k := by
        simp [mapDel, List.filter_cons, hk]
      rw [hstep, ih]
      by_cases hj : j = k
      · simp [hj]
      · have hne : ¬ kv.1 = j := by rw [hk]; exact fun hh => hj hh.symm
        simp [hj, mapGet, hne]
    · have hstep : mapDel (kv :: rest) k = kv :: mapDel rest k := by
        simp [mapDel, List.filter_cons, hk]
      rw [hstep]
      by_cases hj : kv.1 = j
      · have hjk : ¬ j = k := by rw [← hj]; exact hk
        simp [mapGet, hj, hjk]
      · simp [mapGet, hj, ih]

theorem mapGet_some_mem (m : PostMap) (k : Int) (v : Post)
    (h : mapGet m k = some v) : (k, v) ∈ m := by
  induction m with
  | nil => simp [mapGet] at h
  | cons kv rest ih =>
    by_cases hk : kv.1 = k
    · simp [mapGet, hk] at h
      subst hk
      subst h
      exact List.mem_cons_self _ _
    · simp [mapGet, hk] at h
      exact List.mem_cons_of_mem _ (ih h)

theorem mem_mapSet (m : PostMap) (k : Int) (v : Post) (kv : Int × Post)
    (h : kv ∈ mapSet m k v) : kv ∈ m ∨ kv = (k, v) := by
  induction m with
  | nil => simpa [mapSet] using h
  | cons kv0 rest ih =>
    by_cases hk : kv0.1 = k
    · simp [mapSet, hk] at h
      rcases h with h | h
      · right; simp [h]
      · left; exact List.mem_cons_of_mem _ h
    · simp [mapSet, hk] at h
      rcases h with h | h
      · left; simp [h]
      · rcases ih h with h2 | h2
        · left; exact List.mem_cons_of_mem _ h2
        · right; exact h2

/-! ### The filter condition coincides with the spec's search predicate -/

theorem matchesTerm_eq_ciMatch (term : Str) (p : Post) :
    matchesTerm term p = ciMatch term p := by
  by_cases h : term = []
  · subst h
    simp [matchesTerm, ciMatch, goToLower, containsSubL_nil_needle]
  · have he : term.isEmpty = false := by
      cases term with
      | nil => exact absurd rfl h
      | cons c t => rfl
    simp [matchesTerm, ciMatch, he]

theorem goToLower_eq_nil (s : Str) (h : goToLower s = []) : s = [] := by
  cases s with
  | nil => rfl
  | cons c t => simp [goToLower] at h

/-! ### Lemmas about operation sequences -/

theorem applyOp_update_nextID (s : MemoryStore) (id : Int) (d : Post)
    (t : Nat) : (applyOp s (Op.update id d t)).nextID = s.nextID := by
  rcases hget : mapGet s.posts id with _ | old <;>
    simp [applyOp, UpdatePost, hget]

theorem applyOp_delete_nextID (s : MemoryStore) (id : Int) :
    (applyOp s (Op.delete id)).nextID = s.nextID := by
  rcases hget : mapGet s.posts id with _ | old <;>
    simp [applyOp, DeletePost, hget]

theorem nextID_le_applyOp (s : MemoryStore) (op : Op) :
    s.nextID ≤ (applyOp s op).nextID := by
  cases op with
  | create d t1 t2 => simp [applyOp, CreatePost]
  | update id d t => rw [applyOp_update_nextID]
  | delete id => rw [applyOp_delete_nextID]
  | get id => exact le_refl _
  | list term => exact le_refl _

theorem createdIds_formula (ops : List Op) :
    ∀ s : MemoryStore, createdIds s ops =
      (List.range (countCreates ops)).map (fun i => s.nextID + Int.ofNat i) := by
  induction ops with
  | nil => intro s; simp [createdIds, countCreates]
  | cons op rest ih =>
    intro s
    cases op with
    | create d t1 t2 =>
      have ih2 := ih (applyOp s (Op.create d t1 t2))
      have hnext : (applyOp s (Op.create d t1 t2)).nextID = s.nextID + 1 := rfl
      rw [hnext] at ih2
      simp only [createdIds, countCreates, ih2, List.range_succ_eq_map,
        List.map_cons, List.map_map]
      congr 1
      · simp [CreatePost]
      · apply List.map_congr_left
        intro i _
        simp only [Function.comp_apply, Int.ofNat_eq_natCast,
          Nat.succ_eq_add_one, Nat.cast_add, Nat.cast_one]
        ring
    | update id d t =>
      simp only [createdIds, countCreates, ih, applyOp_update_nextID]
    | delete id =>
      simp only [createdIds, countCreates, ih, applyOp_delete_nextID]
    | get id =>
      simp only [createdIds, countCreates, ih]
      rfl
    | list term =>
      simp only [createdIds, countCreates, ih]
      rfl

/-- Every key in the collection is below the id counter (the part of the
reachable-state invariant that makes deleted ids unrepeatable). -/
def keysBelow (s : MemoryStore) : Prop :=
  ∀ kv ∈ s.posts, kv.1 < s.nextID

theorem keysBelow_applyOp (s : MemoryStore) (op : Op)
    (h : keysBelow s) : keysBelow (applyOp s op) := by
  cases op with
  | create d t1 t2 =>
    intro kv hkv
    simp only [applyOp, CreatePost] at hkv ⊢
    rcases mem_mapSet _ _ _ _ hkv with hm | he
    · have := h kv hm
      omega
    · subst he
      exact lt_add_one _
  | update id d t =>
    intro kv hkv
    rw [applyOp_update_nextID]
    rcases hget : mapGet s.posts id with _ | old
    · simp only [applyOp, UpdatePost, hget] at hkv
      exact h kv hkv
    · have hid : id < s.nextID := h _ (mapGet_some_mem _ _ _ hget)
      simp only [applyOp, UpdatePost, hget] at hkv
      rcases mem_mapSet _ _ _ _ hkv with hm | he
      · exact h kv hm
      · subst he
        exact hid
  | delete id =>
    intro kv hkv
    rw [applyOp_delete_nextID]
    rcases hget : mapGet s.posts id with _ | old
    · simp only [applyOp, DeletePost, hget] at hkv
      exact h kv hkv
    · simp only [applyOp, DeletePost, hget, mapDel] at hkv
      exact h kv (List.mem_of_mem_filter hkv)
  | get id => exact h
  | list term => exact h

theorem absent_applyOp (s : MemoryStore) (op : Op) (id : Int)
    (hlt : id < s.nextID) (habs : mapGet s.posts id = none) :
    mapGet (applyOp s op).posts id = none := by
  cases op with
  | create d t1 t2 =>
    have hne : id ≠ s.nextID := by omega
    simp only [applyOp, CreatePost]
    rw [mapGet_mapSet_ne _ _ _ _ hne]
    exact habs
  | update j d t =>
    rcases hget : mapGet s.posts j with _ | old
    · simp only [applyOp, UpdatePost, hget]
      exact habs
    · have hne : id ≠ j := by
        intro he; subst he; rw [habs] at hget; exact Option.noConfusion hget
      simp only [applyOp, UpdatePost, hget]
      rw [mapGet_mapSet_ne _ _ _ _ hne]
      exact habs
  | delete j =>
    rcases hget : mapGet s.posts j with _ | old
    · simp only [applyOp, DeletePost, hget]
      exact habs
    · simp only [applyOp, DeletePost, hget]
      rw [mapGet_mapDel]
      by_cases he : id = j
      · simp [he]
      · simp [he, habs]
  | get j => exact habs
  | list term => exact habs

theorem absent_runOps (ops : List Op) :
    ∀ s : MemoryStore, keysBelow s → ∀ id : Int, id < s.nextID →
      mapGet s.posts id = none →
      mapGet (runOps s ops).posts id = none := by
  induction ops with
  | nil => intro s _ id _ habs; exact habs
  | cons op rest ih =>
    intro s hkb id hlt habs
    have h1 : keysBelow (applyOp s op) := keysBelow_applyOp s op hkb
    have h2 : id < (applyOp s op).nextID :=
      lt_of_lt_of_le hlt (nextID_le_applyOp s op)
    have h3 : mapGet (applyOp s op).posts id = none :=
      absent_applyOp s op id hlt habs
    simpa [runOps] using ih (applyOp s op) h1 id h2 h3

instance (s : MemoryStore) : Decidable (keysBelow s) := by
  unfold keysBelow; infer_instance

/-! ### Concrete fixtures used by witnesses and counterexamples -/

/-- A minimal valid draft (non-empty title and content). -/
def draftA : Post := ⟨0, ("a").data, ("b").data, [], [], 0, 0⟩

/-- The post stored after creating `draftA` at clock readings 0 and 1. -/
def postA1 : Post := ⟨1, ("a").data, ("b").data, [], [], 0, 1⟩

/-- The spec's scenario post `{title:"Go Basics", content:"intro",
category:"Tech"}` as stored under id 1. -/
def postGo : Post :=
  ⟨1, ("Go Basics").data, ("intro").data, ("Tech").data, [], 5, 5⟩

/-- The spec's scenario post `{title:"Cooking", content:"recipes",
category:"Food"}` as stored under id 2. -/
def postCook : Post :=
  ⟨2, ("Cooking").data, ("recipes").data, ("Food").data, [], 6, 6⟩

/-- A store holding the two scenario posts, counter at 3. -/
def storeTwo : MemoryStore := ⟨[(1, postGo), (2, postCook)], 3⟩

end BlogApi

deriving instance DecidableEq for Except

namespace BlogApi

/-! ### The claims -/

/-- Unfolding equation for `ServeHTTP` with the boolean comparisons turned
into propositional ones. -/
theorem ServeHTTP_eq (s : MemoryStore) (r : Request) (t1 t2 : Nat) :
    ServeHTTP s r t1 t2 =
      if trimPre r.path (("/posts/").data) = [] then
        if r.method = ("GET").data then GetAllPostsH s r
        else if r.method = ("POST").data then CreatePostH s r t1 t2
        else (⟨405, RespBody.text ("Method not allowed").data⟩, s)
      else
        match parseInt64 (trimPre r.path (("/posts/").data)) with
        | none => (⟨400, RespBody.text ("Invalid post ID").data⟩, s)
        | some id =>
          if r.method = ("GET").data then GetPostH s id
          else if r.method = ("PUT").data then UpdatePostH s r id t1
          else if r.method = ("DELETE").data then DeletePostH s id
          else (⟨405, RespBody.text ("Method not allowed").data⟩, s) := by
  unfold ServeHTTP
  simp only [beq_iff_eq]

/-- C1 (code bug): for a request whose path is exactly the bare collection
path `/posts`, the handler does not dispatch GET to list or POST to create.
`TrimPrefix` leaves `/posts` unchanged (it does not start with `/posts/`),
so it is treated as an identifier token whose integer parse fails, and both
methods get 400 — contradicting the repository's own handler tests
(`TestPostHandler/CreatePost/success` sends POST `/posts` expecting 201 and
`TestPostHandler/GetAllPosts` sends GET `/posts` expecting 200). -/
theorem c1_theorem :
    trimPre (("/posts").data) (("/posts/").data) = ("/posts").data ∧
    parseInt64 (("/posts").data) = none ∧
    (ServeHTTP NewMemoryStore
      ⟨("GET").data, ("/posts").data, none, none⟩ 0 0).1.status = 400 ∧
    (ServeHTTP NewMemoryStore
      ⟨("POST").data, ("/posts").data, none, some draftA⟩ 0 0).1.status = 400 := by
  decide

/-- C2 (counterexample): the token `-1` is negative yet parses successfully
under `strconv.ParseInt(..., 10, 64)`, so a GET with that token reaches the
store and yields 404, not the 400 the claim asserts. -/
theorem c2_counterexample :
    parseInt64 (("-1").data) = some (-1) ∧
    (ServeHTTP NewMemoryStore
      ⟨("GET").data, ("/posts/-1").data, none, none⟩ 0 0).1.status = 404 ∧
    (ServeHTTP NewMemoryStore
      ⟨("GET").data, ("/posts/-1").data, none, none⟩ 0 0).1.status ≠ 400 := by
  decide

/-- C2 (amended): for a path `collection path + '/' + token`, a token that
does not parse as a signed 64-bit integer draws 400 regardless of store
state; a token that parses (negative ones included) is dispatched by id, a
GET going to the get operation. -/
theorem c2_theorem (s : MemoryStore) (r : Request) (t1 t2 : Nat) (tok : Str)
    (hpath : r.path = ("/posts/").data ++ tok) :
    (tok ≠ [] → parseInt64 tok = none →
      ServeHTTP s r t1 t2 = (⟨400, RespBody.text ("Invalid post ID").data⟩, s)) ∧
    (∀ id : Int, parseInt64 tok = some id → r.method = ("GET").data →
      ServeHTTP s r t1 t2 = GetPostH s id) := by
  have hT : trimPre r.path (("/posts/").data) = tok := by
    rw [hpath]; exact trimPre_append _ _
  constructor
  · intro hne hbad
    rw [ServeHTTP_eq, hT, if_neg hne, hbad]
  · intro id hid hm
    have hne : tok ≠ [] := by
      intro h
      subst h
      simp [parseInt64] at hid
    rw [ServeHTTP_eq, hT, if_neg hne, hid]
    simp [hm]

/-- C2 witness: a non-integer token and a negative token, each dispatched as
the amended claim states. -/
theorem c2_witness :
    ServeHTTP NewMemoryStore
        ⟨("GET").data, ("/posts/abc").data, none, none⟩ 0 0 =
      (⟨400, RespBody.text ("Invalid post ID").data⟩, NewMemoryStore) ∧
    ServeHTTP NewMemoryStore
        ⟨("GET").data, ("/posts/-1").data, none, none⟩ 0 0 =
      GetPostH NewMemoryStore (-1) :=
  ⟨(c2_theorem NewMemoryStore _ 0 0 (("abc").data) rfl).1
      (by decide) (by decide),
   (c2_theorem NewMemoryStore _ 0 0 (("-1").data) rfl).2 (-1)
      (by decide) rfl⟩

/-- C3 (counterexample): `CreatePost` reads the clock twice, once for
`CreatedAt` and once for `UpdatedAt`; with distinct readings 0 and 1 the
fetched post has `createdAt ≠ updatedAt`, refuting the claimed equality. -/
theorem c3_counterexample :
    GetPost (CreatePost NewMemoryStore draftA 0 1).2
        (CreatePost NewMemoryStore draftA 0 1).1 = Except.ok postA1 ∧
    postA1.CreatedAt ≠ postA1.UpdatedAt := by
  decide

/-- C3 (amended): for every valid draft, create followed by get of the
returned id yields a post whose title, content, category and tags equal the
draft's, whose id is the returned (positive) id, and whose `createdAt` and
`updatedAt` are the two clock readings, with `createdAt ≤ updatedAt` since
the clock is monotone across the two reads. -/
theorem c3_theorem (s : MemoryStore) (draft : Post) (t1 t2 : Nat)
    (_hT : draft.Title ≠ []) (_hC : draft.Content ≠ [])
    (hmono : t1 ≤ t2) (hctr : 1 ≤ s.nextID) :
    ∃ p : Post,
      GetPost (CreatePost s draft t1 t2).2 (CreatePost s draft t1 t2).1 =
        Except.ok p ∧
      p.Title = draft.Title ∧ p.Content = draft.Content ∧
      p.Category = draft.Category ∧ p.Tags = draft.Tags ∧
      p.ID = (CreatePost s draft t1 t2).1 ∧ 0 < p.ID ∧
      p.CreatedAt = t1 ∧ p.UpdatedAt = t2 ∧
      p.CreatedAt ≤ p.UpdatedAt := by
  refine ⟨{ draft with ID := s.nextID, CreatedAt := t1, UpdatedAt := t2 },
    ?_, rfl, rfl, rfl, rfl, rfl, ?_, rfl, rfl, hmono⟩
  · unfold GetPost CreatePost
    simp [mapGet_mapSet_self]
  · show (0 : Int) < s.nextID
    omega

/-- C3 witness: the amended claim at the fresh store, `draftA`, and clock
readings 0 ≤ 1. -/
theorem c3_witness :
    ∃ p : Post,
      GetPost (CreatePost NewMemoryStore draftA 0 1).2
          (CreatePost NewMemoryStore draftA 0 1).1 = Except.ok p ∧
      p.Title = draftA.Title ∧ p.Content = draftA.Content ∧
      p.Category = draftA.Category ∧ p.Tags = draftA.Tags ∧
      p.ID = (CreatePost NewMemoryStore draftA 0 1).1 ∧ 0 < p.ID ∧
      p.CreatedAt = 0 ∧ p.UpdatedAt = 1 ∧
      p.CreatedAt ≤ p.UpdatedAt :=
  c3_theorem NewMemoryStore draftA 0 1 (by decide) (by decide)
    (by decide) (by decide)

/-- C4 (confirmed): along any operation sequence from the fresh store, the
ids handed out by the create calls are exactly 1, 2, 3, …: strictly
increasing, starting at 1, never repeated, interleaved deletes (or any other
operations) notwithstanding. -/
theorem c4_theorem (ops : List Op) :
    createdIds NewMemoryStore ops =
      (List.range (countCreates ops)).map (fun i => 1 + Int.ofNat i) ∧
    (createdIds NewMemoryStore ops).Pairwise (fun a b : Int => a < b) := by
  have h := createdIds_formula ops NewMemoryStore
  constructor
  · exact h
  · rw [h]
    refine List.Pairwise.map _ ?_ (List.pairwise_lt_range _)
    intro a b hab
    simp only [Int.ofNat_eq_natCast]
    omega

/-- C5 (confirmed): for every well-formed store state and term, list
returns — as a success, never an error — exactly the live posts whose
title, content, or category contains the term as a case-insensitive
substring; each live post appears exactly once; the empty term returns
every live post; and the result is invariant under recasing the term. -/
theorem c5_theorem (s : MemoryStore) (term : Str) (h : WF s) :
    ∃ l : List Post,
      GetAllPosts s term = Except.ok l ∧
      (∀ p : Post,
        p ∈ l ↔ (∃ kv ∈ s.posts, kv.2 = p) ∧ ciMatch term p = true) ∧
      l.Nodup ∧
      (term = [] → l = s.posts.map (fun kv => kv.2)) ∧
      (∀ term2 : Str, goToLower term2 = goToLower term →
        GetAllPosts s term2 = GetAllPosts s term) := by
  obtain ⟨hnd, hid, _⟩ := h
  refine ⟨_, rfl, ?_, ?_, ?_, ?_⟩
  · intro p
    simp only [List.mem_map, List.mem_filter]
    constructor
    · rintro ⟨kv, ⟨hmem, hmatch⟩, hp⟩
      subst hp
      exact ⟨⟨kv, hmem, rfl⟩, (matchesTerm_eq_ciMatch term kv.2) ▸ hmatch⟩
    · rintro ⟨⟨kv, hmem, hp⟩, hmatch⟩
      subst hp
      exact ⟨kv, ⟨hmem, (matchesTerm_eq_ciMatch term kv.2).symm ▸ hmatch⟩, rfl⟩
  · have h1 : s.posts.Nodup := List.Nodup.of_map _ hnd
    have h2 : (s.posts.filter fun kv => matchesTerm term kv.2).Nodup :=
      h1.filter _
    refine List.Nodup.map_on ?_ h2
    intro x hx y hy hxy
    have hx2 : x.2.ID = x.1 := hid x (List.mem_of_mem_filter hx)
    have hy2 : y.2.ID = y.1 := hid y (List.mem_of_mem_filter hy)
    have h3 : x.1 = y.1 := by rw [← hx2, ← hy2, hxy]
    exact Prod.ext h3 hxy
  · intro hterm
    subst hterm
    have hall : ∀ kv ∈ s.posts, matchesTerm [] kv.2 = true :=
      fun kv _ => by simp [matchesTerm]
    rw [List.filter_eq_self.mpr hall]
  · intro term2 h2
    unfold GetAllPosts
    have hcond : ∀ kv ∈ s.posts,
        matchesTerm term2 kv.2 = matchesTerm term kv.2 := by
      intro kv _
      unfold matchesTerm
      rw [h2]
      have hbeq : (term2 == []) = (term == []) := by
        by_cases ht : term = []
        · subst ht
          have := goToLower_eq_nil term2 (by simpa [goToLower] using h2)
          subst this
          rfl
        · have ht2 : term2 ≠ [] := by
            intro hh
            subst hh
            exact ht (goToLower_eq_nil term (by rw [← h2]; rfl))
          rw [beq_eq_false_iff_ne.mpr ht2, beq_eq_false_iff_ne.mpr ht]
      rw [hbeq]
    rw [List.filter_congr hcond]

/-- C5 witness: the two-post scenario store with term `"tech"`. -/
theorem c5_witness :
    ∃ l : List Post,
      GetAllPosts storeTwo (("tech").data) = Except.ok l ∧
      (∀ p : Post,
        p ∈ l ↔ (∃ kv ∈ storeTwo.posts, kv.2 = p) ∧
          ciMatch (("tech").data) p = true) ∧
      l.Nodup ∧
      ((("tech").data : Str) = [] →
        l = storeTwo.posts.map (fun kv => kv.2)) ∧
      (∀ term2 : Str, goToLower term2 = goToLower (("tech").data) →
        GetAllPosts storeTwo term2 = GetAllPosts storeTwo (("tech").data)) :=
  c5_theorem storeTwo (("tech").data) (by decide)

/-- The post `UpdatePost` builds from a stored post and a draft: the draft's
title, content, category and tags, the stored id and createdAt, and the
fresh clock reading as updatedAt. -/
def updatedPost (old draft : Post) (t : Nat) : Post :=
  { old with
    Title := draft.Title, Content := draft.Content,
    Category := draft.Category, Tags := draft.Tags, UpdatedAt := t }

/-- C6 (confirmed): updating a live post overwrites exactly title, content,
category and tags with the draft's values, keeps id and createdAt, sets
updatedAt to the (monotone) clock reading — hence no earlier than the
previous updatedAt — stores the result under the same id leaving every
other id untouched, and returns the updated post. -/
theorem c6_theorem (s : MemoryStore) (id : Int) (old draft : Post) (t : Nat)
    (hlive : mapGet s.posts id = some old) (hmono : old.UpdatedAt ≤ t) :
    ∃ (p : Post) (s2 : MemoryStore),
      UpdatePost s id draft t = Except.ok (p, s2) ∧
      p.Title = draft.Title ∧ p.Content = draft.Content ∧
      p.Category = draft.Category ∧ p.Tags = draft.Tags ∧
      p.ID = old.ID ∧ p.CreatedAt = old.CreatedAt ∧
      p.UpdatedAt = t ∧ old.UpdatedAt ≤ p.UpdatedAt ∧
      mapGet s2.posts id = some p ∧
      (∀ j : Int, j ≠ id → mapGet s2.posts j = mapGet s.posts j) ∧
      s2.nextID = s.nextID := by
  have hp : UpdatePost s id draft t =
      Except.ok (updatedPost old draft t,
        { s with posts := mapSet s.posts id (updatedPost old draft t) }) := by
    unfold UpdatePost
    rw [hlive]
    rfl
  exact ⟨_, _, hp, rfl, rfl, rfl, rfl, rfl, rfl, rfl, hmono,
    mapGet_mapSet_self _ _ _, fun j hj => mapGet_mapSet_ne _ _ _ _ hj, rfl⟩

/-- C6 witness: updating scenario post 1 with `draftA` at clock reading 7. -/
theorem c6_witness :
    ∃ (p : Post) (s2 : MemoryStore),
      UpdatePost storeTwo 1 draftA 7 = Except.ok (p, s2) ∧
      p.Title = draftA.Title ∧ p.Content = draftA.Content ∧
      p.Category = draftA.Category ∧ p.Tags = draftA.Tags ∧
      p.ID = postGo.ID ∧ p.CreatedAt = postGo.CreatedAt ∧
      p.UpdatedAt = 7 ∧ postGo.UpdatedAt ≤ p.UpdatedAt ∧
      mapGet s2.posts 1 = some p ∧
      (∀ j : Int, j ≠ 1 → mapGet s2.posts j = mapGet storeTwo.posts j) ∧
      s2.nextID = storeTwo.nextID :=
  c6_theorem storeTwo 1 postGo draftA 7 (by decide) (by decide)

/-- C7 (confirmed): updating a nonexistent id fails with the not-found
error — surfaced by the handler as 404 when the body passes validation —
and the store's visible collection is returned unchanged. -/
theorem c7_theorem (s : MemoryStore) (id : Int) (draft : Post) (t : Nat)
    (r : Request) (hdead : mapGet s.posts id = none) :
    UpdatePost s id draft t = Except.error (notFoundMsg id) ∧
    (r.body = some draft → draft.Title ≠ [] → draft.Content ≠ [] →
      UpdatePostH s r id t = (⟨404, RespBody.text (notFoundMsg id)⟩, s)) := by
  have h1 : UpdatePost s id draft t = Except.error (notFoundMsg id) := by
    unfold UpdatePost
    rw [hdead]
  refine ⟨h1, ?_⟩
  intro hb hT hC
  have hT2 : (draft.Title == []) = false := beq_eq_false_iff_ne.mpr hT
  have hC2 : (draft.Content == []) = false := beq_eq_false_iff_ne.mpr hC
  simp [UpdatePostH, hb, hT2, hC2, h1]
  exact contains_notFound id

/-- C7 witness: a PUT of the valid `draftA` to absent id 3 on the scenario
store yields 404 and the same store. -/
theorem c7_witness :
    UpdatePost storeTwo 3 draftA 9 = Except.error (notFoundMsg 3) ∧
    ((some draftA : Option Post) = some draftA → draftA.Title ≠ [] →
      draftA.Content ≠ [] →
      UpdatePostH storeTwo ⟨("PUT").data, ("/posts/3").data, none, some draftA⟩
          3 9 = (⟨404, RespBody.text (notFoundMsg 3)⟩, storeTwo)) :=
  c7_theorem storeTwo 3 draftA 9
    ⟨("PUT").data, ("/posts/3").data, none, some draftA⟩ (by decide)

/-- C8 (confirmed): deleting a live id succeeds, and afterwards — across any
further sequence of store operations — getting that id fails with the
not-found error (ids are never reassigned), as does a second delete of the
same id. -/
theorem c8_theorem (s : MemoryStore) (id : Int) (p : Post)
    (hkb : keysBelow s) (hlive : mapGet s.posts id = some p) :
    ∃ s2 : MemoryStore,
      DeletePost s id = Except.ok s2 ∧
      (∀ ops : List Op,
        GetPost (runOps s2 ops) id = Except.error (notFoundMsg id)) ∧
      DeletePost s2 id = Except.error (notFoundMsg id) := by
  have habs : mapGet (mapDel s.posts id) id = none := by
    rw [mapGet_mapDel]
    simp
  refine ⟨{ s with posts := mapDel s.posts id }, ?_, ?_, ?_⟩
  · unfold DeletePost
    rw [hlive]
  · intro ops
    have hlt : id < s.nextID := hkb _ (mapGet_some_mem _ _ _ hlive)
    have hkb2 : keysBelow ({ s with posts := mapDel s.posts id }) := by
      intro kv hkv
      exact hkb kv (List.mem_of_mem_filter hkv)
    have hnone :=
      absent_runOps ops ({ s with posts := mapDel s.posts id }) hkb2 id hlt habs
    unfold GetPost
    rw [hnone]
  · unfold DeletePost
    rw [show ({ s with posts := mapDel s.posts id } : MemoryStore).posts =
      mapDel s.posts id from rfl, habs]

/-- C8 witness: delete id 1 of the scenario store; the later gets and the
repeat delete fail as the claim states. -/
theorem c8_witness :
    ∃ s2 : MemoryStore,
      DeletePost storeTwo 1 = Except.ok s2 ∧
      (∀ ops : List Op,
        GetPost (runOps s2 ops) 1 = Except.error (notFoundMsg 1)) ∧
      DeletePost s2 1 = Except.error (notFoundMsg 1) :=
  c8_theorem storeTwo 1 postGo (by decide) (by decide)

/-- C9 (confirmed): on create and update alike, a body that fails to decode
draws 400 ("Invalid request body"), and a decoded body with empty title or
content draws 400 with the structured payload naming the required fields —
in every case before any store call, so the returned state is the input
state unchanged, whatever the targeted id. -/
theorem c9_theorem (s : MemoryStore) (r : Request) (id : Int) (t1 t2 : Nat) :
    (r.body = none →
      CreatePostH s r t1 t2 =
        (⟨400, RespBody.text ("Invalid request body").data⟩, s) ∧
      UpdatePostH s r id t1 =
        (⟨400, RespBody.text ("Invalid request body").data⟩, s)) ∧
    (∀ d : Post, r.body = some d → (d.Title = [] ∨ d.Content = []) →
      CreatePostH s r t1 t2 = (⟨400, RespBody.text valReqMsg⟩, s) ∧
      UpdatePostH s r id t1 = (⟨400, RespBody.text valReqMsg⟩, s)) := by
  constructor
  · intro hb
    constructor
    · simp [CreatePostH, hb]
    · simp [UpdatePostH, hb]
  · intro d hb hval
    constructor
    · rcases hval with h | h <;> simp [CreatePostH, hb, h]
    · rcases hval with h | h <;> simp [UpdatePostH, hb, h]

/-- C9 witness: a malformed body on create and an empty-title body on an
update that targets the absent id 3, both on the scenario store. -/
theorem c9_witness :
    UpdatePostH storeTwo ⟨("PUT").data, ("/posts/3").data, none, none⟩ 3 0 =
      (⟨400, RespBody.text ("Invalid request body").data⟩, storeTwo) ∧
    UpdatePostH storeTwo
        ⟨("PUT").data, ("/posts/3").data, none,
          some ⟨0, [], ("x").data, [], [], 0, 0⟩⟩ 3 0 =
      (⟨400, RespBody.text valReqMsg⟩, storeTwo) :=
  ⟨((c9_theorem storeTwo
      ⟨("PUT").data, ("/posts/3").data, none, none⟩ 3 0 0).1 rfl).2,
   ((c9_theorem storeTwo
      ⟨("PUT").data, ("/posts/3").data, none,
        some ⟨0, [], ("x").data, [], [], 0, 0⟩⟩ 3 0 0).2
      ⟨0, [], ("x").data, [], [], 0, 0⟩ rfl (Or.inl rfl)).2⟩

/-- C10 (confirmed): `ServeHTTP` takes the collection route exactly when the
remainder of the path after stripping `/posts/` is empty — true of the path
`/posts/` itself — dispatching GET to list, POST to create and anything
else to 405; every nonempty remainder is handed to integer parsing, the
bare path `/posts` included, whose remainder is `/posts` itself and fails
the parse with 400. -/
theorem c10_theorem (s : MemoryStore) (r : Request) (t1 t2 : Nat) :
    (trimPre r.path (("/posts/").data) = [] →
      (r.method = ("GET").data → ServeHTTP s r t1 t2 = GetAllPostsH s r) ∧
      (r.method = ("POST").data →
        ServeHTTP s r t1 t2 = CreatePostH s r t1 t2) ∧
      (r.method ≠ ("GET").data → r.method ≠ ("POST").data →
        ServeHTTP s r t1 t2 =
          (⟨405, RespBody.text ("Method not allowed").data⟩, s))) ∧
    (r.path = ("/posts/").data → trimPre r.path (("/posts/").data) = []) ∧
    (trimPre r.path (("/posts/").data) ≠ [] →
      parseInt64 (trimPre r.path (("/posts/").data)) = none →
      ServeHTTP s r t1 t2 =
        (⟨400, RespBody.text ("Invalid post ID").data⟩, s)) ∧
    (r.path = ("/posts").data →
      trimPre r.path (("/posts/").data) = ("/posts").data ∧
      ServeHTTP s r t1 t2 =
        (⟨400, RespBody.text ("Invalid post ID").data⟩, s)) := by
  have hroute : ∀ rem, trimPre r.path (("/posts/").data) = rem → rem ≠ [] →
      parseInt64 rem = none →
      ServeHTTP s r t1 t2 =
        (⟨400, RespBody.text ("Invalid post ID").data⟩, s) := by
    intro rem hrem hne hbad
    rw [ServeHTTP_eq, hrem, if_neg hne, hbad]
  refine ⟨?_, ?_, fun hne hbad => hroute _ rfl hne hbad, ?_⟩
  · intro he
    refine ⟨?_, ?_, ?_⟩
    · intro hm
      rw [ServeHTTP_eq, he, if_pos rfl, if_pos hm]
    · intro hm
      have hg : r.method ≠ ("GET").data := by
        rw [hm]; decide
      rw [ServeHTTP_eq, he, if_pos rfl, if_neg hg, if_pos hm]
    · intro h1 h2
      rw [ServeHTTP_eq, he, if_pos rfl, if_neg h1, if_neg h2]
  · intro hp
    rw [hp]
    exact trimPre_self _
  · intro hp
    have hrem : trimPre r.path (("/posts/").data) = ("/posts").data := by
      rw [hp]
      decide
    exact ⟨hrem, hroute _ hrem (by decide) (by decide)⟩

/-- C10 witness: the trailing-slash path takes the collection route for GET
and a stray method, while the bare path `/posts` is parsed as a token and
draws 400. -/
theorem c10_witness :
    ServeHTTP NewMemoryStore
        ⟨("GET").data, ("/posts/").data, none, none⟩ 0 0 =
      GetAllPostsH NewMemoryStore
        ⟨("GET").data, ("/posts/").data, none, none⟩ ∧
    ServeHTTP NewMemoryStore
        ⟨("PATCH").data, ("/posts/").data, none, none⟩ 0 0 =
      (⟨405, RespBody.text ("Method not allowed").data⟩, NewMemoryStore) ∧
    ServeHTTP NewMemoryStore
        ⟨("GET").data, ("/posts").data, none, none⟩ 0 0 =
      (⟨400, RespBody.text ("Invalid post ID").data⟩, NewMemoryStore) :=
  ⟨((c10_theorem NewMemoryStore
      ⟨("GET").data, ("/posts/").data, none, none⟩ 0 0).1
        (by decide)).1 rfl,
   ((c10_theorem NewMemoryStore
      ⟨("PATCH").data, ("/posts/").data, none, none⟩ 0 0).1
        (by decide)).2.2 (by decide) (by decide),
   ((c10_theorem NewMemoryStore
      ⟨("GET").data, ("/posts").data, none, none⟩ 0 0).2.2.2 rfl).2⟩

end BlogApi
